import Mathlib

/-!
# Verification of the `path_hdfs` path-abstraction layer

A shallow embedding of `io/path.py` and `io/hdfs.py`: a `pathlib.Path`-like
entity dispatching filesystem operations between a local backend and a remote
HDFS backend based on the URI scheme of the path string.

Python strings are embedded as `List Char` (`Str`); byte strings as `List Nat`
with each element `< 256` where it matters.  The external collaborators (the
pyarrow HDFS client, the OS filesystem, the utf-8 codec) are modelled
explicitly; every function translated from the repository's own code carries
the name of the Python symbol it embeds.
-/

set_option maxRecDepth 10000

abbrev Str := List Char

/-- Characters allowed in a URI scheme by `urllib.parse`
(`scheme_chars = letters + digits + "+-."`). -/
def schemeChar (c : Char) : Bool :=
  c.isAlpha || c.isDigit || c == '+' || c == '-' || c == '.'

/-- Model of `urllib.parse.urlparse(s).scheme` (CPython `urlsplit`): take the
text before the first `':'`; if it is non-empty, starts with an ASCII letter
and consists of scheme characters only, it is the scheme, lowercased;
otherwise the scheme is empty.  No `"//"` is required after the colon. -/
def urlparseScheme (s : Str) : Str :=
  if s.contains ':' then
    let pre := s.takeWhile (fun c => c ≠ ':')
    match pre with
    | [] => []
    | c :: _ =>
      if c.isAlpha && pre.all schemeChar then pre.map Char.toLower else []
  else []

/-- Model of `Path.is_hdfs` (io/path.py:52-56): the urlparse scheme is `hdfs` or
`viewfs`. -/
def Path.is_hdfs (s : Str) : Bool :=
  urlparseScheme s == "hdfs".toList || urlparseScheme s == "viewfs".toList

/-- Model of `Path.is_local` (io/path.py:58-61): `not self.is_hdfs`. -/
def Path.is_local (s : Str) : Bool :=
  ! Path.is_hdfs s

/-- Whether `pat` occurs as a contiguous substring of `s`. -/
def hasSubstr (pat s : Str) : Bool :=
  (List.range (s.length + 1)).any (fun i => pat.isPrefixOf (s.drop i))

/-- One step of `posixpath.join`: append component `b` to the accumulated
path, exactly as CPython does (`if b.startswith(sep): path = b; elif not path
or path.endswith(sep): path += b; else: path += sep + b`). -/
def pjoinStep (path b : Str) : Str :=
  if b.head? = some '/' then b
  else if path = [] ∨ path.getLast? = some '/' then path ++ b
  else path ++ '/' :: b

/-- Model of `os.path.join(a, *rest)` (posix): fold `pjoinStep` over the components.
This is what `Path.__init__` (io/path.py:26-27) applies to its arguments. -/
def pjoin (a : Str) (rest : List Str) : Str :=
  rest.foldl pjoinStep a

/-- The string form of `Path(s1, ..., sn)` (io/path.py:26-30):
`os.path.join` of the segments. -/
def Path.mk' : List Str → Str
  | [] => []
  | a :: rest => pjoin a rest

/-- Model of `os.path.basename`: the text after the last `'/'`.  Used by `Path.name`
(io/path.py:42-45). -/
def basename (s : Str) : Str :=
  ((s.reverse.takeWhile (fun c => c ≠ '/'))).reverse

/-! ## Filesystem model

Both backends store a finite map from path strings to entries.  The remote
backend may additionally be unreachable, in which case `pyarrow.hdfs.connect()`
(invoked by `HDFSContext.__enter__`, io/hdfs.py:16-18) raises
`ConnectionError`. -/

/-- A directory entry: a regular file with byte content, or a directory. -/
inductive Entry
  | file (content : List Nat)
  | dir
deriving DecidableEq, Repr

/-- A filesystem: an association list from path strings to entries. -/
structure FS where
  entries : List (Str × Entry)
deriving DecidableEq, Repr

/-- Entry stored at `p`, if any. -/
def FS.lookup (fs : FS) (p : Str) : Option Entry :=
  (fs.entries.find? (fun e => e.1 == p)).map (·.2)

/-- Collaborator `exists` primitive: entry present (file or dir). -/
def FS.exists' (fs : FS) (p : Str) : Bool :=
  (fs.lookup p).isSome

/-- Collaborator `isfile` primitive. -/
def FS.isfile (fs : FS) (p : Str) : Bool :=
  match fs.lookup p with
  | some (.file _) => true
  | _ => false

/-- Collaborator `isdir` primitive. -/
def FS.isdir (fs : FS) (p : Str) : Bool :=
  match fs.lookup p with
  | some .dir => true
  | _ => false

/-- Remove the entry at `p` (collaborator `unlink` / `hdfs.delete`). -/
def FS.remove (fs : FS) (p : Str) : FS :=
  ⟨fs.entries.filter (fun e => e.1 ≠ p)⟩

/-- Insert a directory entry at `p` (no-op when something is already there). -/
def FS.insertDir (fs : FS) (p : Str) : FS :=
  if fs.exists' p then fs else ⟨(p, .dir) :: fs.entries⟩

/-- Write file content at `p`, replacing any previous entry (what an
`open(mode="wb")` of the collaborator stream followed by a full write does). -/
def FS.setFile (fs : FS) (p : Str) (bs : List Nat) : FS :=
  ⟨(p, .file bs) :: (fs.remove p).entries⟩

/-- The world a `Path` operation runs in: the local filesystem, the remote
filesystem, and whether the remote backend is reachable
(`pyarrow.hdfs.connect()` succeeds iff `hdfsUp`). -/
structure World where
  localFS : FS
  hdfsFS : FS
  hdfsUp : Bool
deriving DecidableEq, Repr

/-- Error taxonomy of the repository's operations (spec section 7), plus the
dynamic errors Python raises outside that taxonomy. -/
inductive Err
  | notFound          -- FileNotFoundError
  | alreadyExists     -- OSError "Directory ... already exists."
  | connectionError   -- pyarrow.hdfs.connect failure
  | invalidMode       -- ValueError "Mode ... unkown"
  | typeError         -- dynamic type error from the underlying stream/codec
  | decodeError       -- UnicodeDecodeError from the codec
deriving DecidableEq, Repr

/-- Acquire an HDFS connection (`HDFSContext.__enter__`,
io/hdfs.py:16-18): returns the remote filesystem, or raises
`ConnectionError` when the backend is unreachable. -/
def HDFSContext.enter (w : World) : Except Err FS :=
  if w.hdfsUp then .ok w.hdfsFS else .error .connectionError

/-- Model of `Path.exists` (io/path.py:74-81): a supplied filesystem handle is queried
directly; otherwise a remote path opens a fresh connection, a local path asks
`pathlib`. -/
def Path.exists' (w : World) (p : Str) (filesystem : Option FS) :
    Except Err Bool :=
  match filesystem with
  | some fs => .ok (fs.exists' p)
  | none =>
    if Path.is_hdfs p then
      (HDFSContext.enter w).map (fun hdfs => hdfs.exists' p)
    else
      .ok (w.localFS.exists' p)

/-- Model of `Path.is_dir` (io/path.py:83-90). -/
def Path.is_dir (w : World) (p : Str) (filesystem : Option FS) :
    Except Err Bool :=
  match filesystem with
  | some fs => .ok (fs.isdir p)
  | none =>
    if Path.is_hdfs p then
      (HDFSContext.enter w).map (fun hdfs => hdfs.isdir p)
    else
      .ok (w.localFS.isdir p)

/-- Model of `Path.is_file` (io/path.py:92-99). -/
def Path.is_file (w : World) (p : Str) (filesystem : Option FS) :
    Except Err Bool :=
  match filesystem with
  | some fs => .ok (fs.isfile p)
  | none =>
    if Path.is_hdfs p then
      (HDFSContext.enter w).map (fun hdfs => hdfs.isfile p)
    else
      .ok (w.localFS.isfile p)

/-! ## Mutating operations

Mutating operations additionally record the backend create/remove calls they
issue, so that "does not call the backend" is a statement about the trace and
not merely about the resulting state.  (Effects requested on a caller-supplied
filesystem handle belong to the caller's handle and are recorded in the trace
only.) -/

/-- Backend mutation calls a `Path` operation can issue. -/
inductive BCall
  | fsMkdir (p : Str)                              -- filesystem.mkdir(p)
  | hdfsMkdir (p : Str)                            -- hdfs.mkdir(p) on a fresh connection
  | localMkdir (p : Str) (parents exist_ok : Bool) -- pathlib.Path(p).mkdir(parents, exist_ok)
  | fsDelete (p : Str)                             -- filesystem.delete(p)
  | hdfsDelete (p : Str)                           -- hdfs.delete(p) on a fresh connection
  | localUnlink (p : Str)                          -- pathlib.Path(p).unlink()
deriving DecidableEq, Repr

/-- The proper `'/'`-joined prefixes of a path, used to model `parents=True`
directory creation by the collaborators. -/
def ancestorsOf (p : Str) : List Str :=
  let parts := p.splitOn '/'
  ((List.range parts.length).drop 1).map
    (fun i => List.intercalate ['/'] (parts.take i))

/-- Collaborator `pathlib.Path.mkdir(parents, exist_ok)`: fails when the
entry exists and is not an already-present directory excused by `exist_ok`;
creates ancestors when `parents`. -/
def localMkdirFS (fs : FS) (p : Str) (parents exist_ok : Bool) :
    Except Err FS :=
  if fs.exists' p then
    if exist_ok && fs.isdir p then .ok fs else .error .alreadyExists
  else
    let fs' := if parents then (ancestorsOf p).foldl FS.insertDir fs else fs
    .ok (fs'.insertDir p)

/-- Collaborator `pyarrow` `hdfs.mkdir(p)`: creates `p` and any missing
ancestors (`mkdir -p` semantics). -/
def hdfsMkdirFS (fs : FS) (p : Str) : FS :=
  ((ancestorsOf p) ++ [p]).foldl FS.insertDir fs

/-- Model of `Path.mkdir` (io/path.py:101-119): returns the new world and the trace of
backend create-directory calls issued. -/
def Path.mkdir (w : World) (p : Str) (parents exist_ok : Bool)
    (filesystem : Option FS) : Except Err (World × List BCall) :=
  match Path.is_dir w p filesystem with
  | .error e => .error e
  | .ok true => if exist_ok then .ok (w, []) else .error .alreadyExists
  | .ok false =>
    match filesystem with
    | some _ => .ok (w, [.fsMkdir p])
    | none =>
      if Path.is_hdfs p then
        match HDFSContext.enter w with
        | .error e => .error e
        | .ok hdfs => .ok ({w with hdfsFS := hdfsMkdirFS hdfs p}, [.hdfsMkdir p])
      else
        match localMkdirFS w.localFS p parents exist_ok with
        | .error e => .error e
        | .ok fs' => .ok ({w with localFS := fs'}, [.localMkdir p parents exist_ok])

/-- Model of `Path.delete` (io/path.py:134-145): remove a single file. -/
def Path.delete (w : World) (p : Str) (filesystem : Option FS) :
    Except Err (World × List BCall) :=
  match Path.is_file w p filesystem with
  | .error e => .error e
  | .ok false => .error .notFound
  | .ok true =>
    match filesystem with
    | some _ => .ok (w, [.fsDelete p])
    | none =>
      if Path.is_hdfs p then
        match HDFSContext.enter w with
        | .error e => .error e
        | .ok hdfs => .ok ({w with hdfsFS := hdfs.remove p}, [.hdfsDelete p])
      else .ok ({w with localFS := w.localFS.remove p}, [.localUnlink p])

/-- The transfer a successful `Path.copy_file` performs. -/
inductive CopyAction
  | hdfsDownload (stream path : Str)    -- pyarrow.hdfs.HadoopFileSystem().download(stream, path)
  | hdfsUpload (dest : Str) (buffer_size : Nat)  -- pyarrow.hdfs.HadoopFileSystem().upload(dest, file, buffer_size)
  | shutilCopy (src dest : Str)         -- shutil.copy(src, dest)
deriving DecidableEq, Repr

/-- Model of `Path.copy_file` (io/path.py:147-162): precondition check followed by the
source's three-way dispatch (`elif self.is_hdfs / elif self.is_local / else`).
Returns the transfer action issued. -/
def Path.copy_file (w : World) (p dest : Str) (filesystem : Option FS) :
    Except Err CopyAction :=
  match Path.is_file w p filesystem with
  | .error e => .error e
  | .ok false => .error .notFound
  | .ok true =>
    if Path.is_hdfs p then
      .ok (.hdfsDownload (pjoin dest [basename p]) p)
    else if Path.is_local p then
      .ok (.hdfsUpload (pjoin dest [basename p]) 4096)
    else
      .ok (.shutilCopy p dest)

/-! ## glob -/

/-- Collaborator glob-pattern matching on a single name: `*` matches any run
of characters (some suffix of the name continues the match), `?` any single
character, anything else itself. -/
def globMatch : Str → Str → Bool
  | [], name => name.isEmpty
  | '*' :: ps, name => name.tails.any (fun suf => globMatch ps suf)
  | '?' :: ps, name =>
    match name with
    | _ :: cs => globMatch ps cs
    | [] => false
  | p :: ps, name =>
    match name with
    | c :: cs => (p == c) && globMatch ps cs
    | [] => false

/-- Predicate: `q` is a direct child of directory `p`: `q = p ++ "/" ++ name` with a
nonempty, slash-free `name`. -/
def isChildOf (p q : Str) : Bool :=
  (q.take (p.length + 1) == p ++ ['/']) &&
    (q.drop (p.length + 1) ≠ []) && (! (q.drop (p.length + 1)).contains '/')

/-- Collaborator `pathlib.Path(p).glob(pattern)`: the direct children of `p`
whose name matches `pattern`. -/
def localGlob (fs : FS) (p pattern : Str) : List Str :=
  (fs.entries.map (·.1)).filter
    (fun q => isChildOf p q && globMatch pattern (q.drop (p.length + 1)))

/-- Model of `Path.glob` (io/path.py:184-190): for a non-remote path the function
returns a generator of the matching local entries; for a remote path the
function body ends without a `return`, so Python returns `None` — modelled as
`Option.none`, distinct from an empty list of results. -/
def Path.glob (w : World) (p pattern : Str) : Option (List Str) :=
  if ! Path.is_hdfs p then some (localGlob w.localFS p pattern) else none

/-! ## File handles, modes and the text codec

A Python `str` is a sequence of Unicode code points, a Python `bytes` a
sequence of bytes; both are embedded as `List Nat`, tagged by `PyData`.
The utf-8 codec (Python's `str.encode` / `bytes.decode`, a collaborator) is
implemented concretely so that the write/read round trip is a real theorem. -/

/-- A dynamically typed Python value flowing through `write`/`read`. -/
inductive PyData
  | str (t : List Nat)
  | bytes (b : List Nat)
deriving DecidableEq, Repr

/-- The text encodings the model knows: the fixed default `"utf-8"`. -/
inductive Encoding
  | utf8
deriving DecidableEq, Repr

/-- A Unicode scalar value: a code point that is not a surrogate.  Python's
utf-8 codec refuses to encode surrogates. -/
def ValidScalar (n : Nat) : Prop :=
  n < 0x110000 ∧ ¬ (0xD800 ≤ n ∧ n ≤ 0xDFFF)

instance (n : Nat) : Decidable (ValidScalar n) := by
  unfold ValidScalar; infer_instance

/-- utf-8 encoding of a single code point. -/
def utf8EncodeChar (n : Nat) : List Nat :=
  if n < 0x80 then [n]
  else if n < 0x800 then [0xC0 + n / 64, 0x80 + n % 64]
  else if n < 0x10000 then
    [0xE0 + n / 4096, 0x80 + n / 64 % 64, 0x80 + n % 64]
  else
    [0xF0 + n / 262144, 0x80 + n / 4096 % 64, 0x80 + n / 64 % 64, 0x80 + n % 64]

/-- Python `str.encode("utf-8")` (collaborator codec). -/
def utf8Encode (t : List Nat) : List Nat :=
  (t.map utf8EncodeChar).flatten

/-- utf-8 continuation byte. -/
def isCont (b : Nat) : Bool :=
  0x80 ≤ b && b < 0xC0

/-- One step of utf-8 decoding: the code point encoded at the head of the
byte list and the remaining bytes, or `none` on malformed input. -/
def utf8DecodeStep : List Nat → Option (Nat × List Nat)
  | [] => none
  | b :: bs =>
    if b < 0x80 then some (b, bs)
    else if b < 0xC0 then none
    else if b < 0xE0 then
      match bs with
      | b1 :: bs' =>
        if isCont b1 then some ((b - 0xC0) * 64 + (b1 - 0x80), bs') else none
      | [] => none
    else if b < 0xF0 then
      match bs with
      | b1 :: b2 :: bs' =>
        if isCont b1 && isCont b2 then
          some ((b - 0xE0) * 4096 + (b1 - 0x80) * 64 + (b2 - 0x80), bs')
        else none
      | _ => none
    else if b < 0xF8 then
      match bs with
      | b1 :: b2 :: b3 :: bs' =>
        if isCont b1 && isCont b2 && isCont b3 then
          some ((b - 0xF0) * 262144 + (b1 - 0x80) * 4096 +
                (b2 - 0x80) * 64 + (b3 - 0x80), bs')
        else none
      | _ => none
    else none

/-- A successful decode step consumes at least one byte. -/
theorem utf8DecodeStep_shrink :
    ∀ l c rest, utf8DecodeStep l = some (c, rest) → rest.length < l.length := by
  intro l c rest h
  match l with
  | [] => simp [utf8DecodeStep] at h
  | b :: bs =>
    simp only [utf8DecodeStep] at h
    split_ifs at h
    · simp_all
    · split at h
      · split_ifs at h
        simp_all
        omega
      · exact absurd h (by simp)
    · split at h
      · split_ifs at h
        simp_all
        omega
      · exact absurd h (by simp)
    · split at h
      · split_ifs at h
        simp_all
        omega
      · exact absurd h (by simp)

/-- Python `bytes.decode("utf-8")` (collaborator codec): `none` on malformed
input. -/
def utf8Decode (l : List Nat) : Option (List Nat) :=
  match l with
  | [] => some []
  | b :: bs =>
    match h : utf8DecodeStep (b :: bs) with
    | none => none
    | some (c, rest) => (utf8Decode rest).map (c :: ·)
termination_by l.length
decreasing_by exact utf8DecodeStep_shrink _ _ _ h

/-- The `{"r": "rb", "w": "wb"}.get(mode, mode)` translation applied to the
mode before the underlying `filesystem.open` call in `HDFSFile.__init__`
(io/hdfs.py:48-52). -/
def HDFSFile.openMode (mode : Str) : Str :=
  if mode = "r".toList then "rb".toList
  else if mode = "w".toList then "wb".toList
  else mode

/-- Model of `HDFSFile.__init__` (io/hdfs.py:31-52): stores the mode, clears the
encoding when `"b" in mode` (line 47), and opens the underlying stream with
the translated mode.  The wrapper itself validates nothing at construction
time — any mode string is forwarded to the backend `open` — so construction
never raises `InvalidModeError`.  Returns the mode string handed to the
backend and the stored encoding. -/
def HDFSFile.init (mode : Str) (encoding : Option Encoding) :
    Except Err (Str × Option Encoding) :=
  .ok (HDFSFile.openMode mode,
       if mode.contains 'b' then none else encoding)

/-- Model of `HDFSFile.write` (io/hdfs.py:68-75): text mode encodes, binary mode
passes bytes through, any other mode raises
`ValueError (Mode ... unkown (must be w or wb))`.  Returns the bytes written
to the stream. -/
def HDFSFile.write (mode : Str) (encoding : Option Encoding)
    (data : PyData) : Except Err (List Nat) :=
  if mode = "w".toList then
    match data, encoding with
    | .str t, some .utf8 => .ok (utf8Encode t)
    | _, _ => .error .typeError
  else if mode = "wb".toList then
    match data with
    | .bytes b => .ok b
    | .str _ => .error .typeError
  else .error .invalidMode

/-- Model of `HDFSFile.read` (io/hdfs.py:77-83): text mode decodes the stream bytes,
binary mode returns them, any other mode raises
`ValueError (Mode ... unkown (must be r or rb))`. -/
def HDFSFile.read (mode : Str) (encoding : Option Encoding)
    (stream : List Nat) : Except Err PyData :=
  if mode = "r".toList then
    match encoding with
    | some .utf8 =>
      match utf8Decode stream with
      | some t => .ok (.str t)
      | none => .error .decodeError
    | none => .error .typeError
  else if mode = "rb".toList then .ok (.bytes stream)
  else .error .invalidMode

/-- Model of `with Path(p).open(mode="w", encoding="utf-8") as f: f.write(data)`
(io/path.py:205-231 then io/hdfs.py:68-75): the remote branch opens a fresh
connection and writes through `HDFSFile`; the local branch opens a `pathlib`
text stream, whose codec encodes with the same utf-8 default. -/
def Path.openWriteText (w : World) (p : Str) (data : PyData) :
    Except Err World :=
  if Path.is_hdfs p then
    match HDFSContext.enter w with
    | .error e => .error e
    | .ok hdfs =>
      match HDFSFile.write "w".toList (some .utf8) data with
      | .error e => .error e
      | .ok bs => .ok {w with hdfsFS := hdfs.setFile p bs}
  else
    match data with
    | .str t => .ok {w with localFS := w.localFS.setFile p (utf8Encode t)}
    | .bytes _ => .error .typeError

/-- Model of `with Path(p).open() as f: f.read()` — mode `"r"`, encoding `"utf-8"`
(io/path.py:205-231 then io/hdfs.py:77-83). -/
def Path.openReadText (w : World) (p : Str) : Except Err PyData :=
  if Path.is_hdfs p then
    match HDFSContext.enter w with
    | .error e => .error e
    | .ok hdfs =>
      match hdfs.lookup p with
      | some (.file bs) => HDFSFile.read "r".toList (some .utf8) bs
      | _ => .error .notFound
  else
    match w.localFS.lookup p with
    | some (.file bs) =>
      match utf8Decode bs with
      | some t => .ok (.str t)
      | none => .error .decodeError
    | _ => .error .notFound

/-! ## Spec-side definitions used to state the claims -/

/-- The spec's "segments joined by a single `'/'` separator". -/
def joinSlash : List Str → Str
  | [] => []
  | [s] => s
  | s :: rest => s ++ '/' :: joinSlash rest

/-- The backend filesystem a predicate call resolves to: the supplied handle
when given, else the backend selected by the scheme. -/
def resolvedFS (w : World) (p : Str) (filesystem : Option FS) : FS :=
  match filesystem with
  | some fs => fs
  | none => if Path.is_hdfs p then w.hdfsFS else w.localFS

/-! ## Codec lemmas -/

theorem utf8Decode_nil : utf8Decode [] = some [] := by
  rw [utf8Decode]

theorem utf8Decode_cons_step (b : Nat) (bs : List Nat) (c : Nat) (rest : List Nat)
    (h : utf8DecodeStep (b :: bs) = some (c, rest)) :
    utf8Decode (b :: bs) = (utf8Decode rest).map (c :: ·) := by
  rw [utf8Decode]
  split
  · simp_all
  · rename_i c' rest' h'
    rw [h] at h'
    simp_all

theorem isCont_ofMod (n : Nat) : isCont (0x80 + n % 64) = true := by
  simp only [isCont, Bool.and_eq_true, decide_eq_true_eq]
  omega

theorem isCont_ofDivMod (n k : Nat) : isCont (0x80 + n / k % 64) = true := by
  simp only [isCont, Bool.and_eq_true, decide_eq_true_eq]
  omega

/-- Decoding recovers the code point a single `utf8EncodeChar` wrote, leaving
the following bytes untouched. -/
theorem utf8DecodeStep_encodeChar (n : Nat) (h : n < 0x110000) (rest : List Nat) :
    utf8DecodeStep (utf8EncodeChar n ++ rest) = some (n, rest) := by
  unfold utf8EncodeChar
  by_cases h1 : n < 0x80
  · rw [if_pos h1]
    simp only [List.cons_append, List.nil_append, utf8DecodeStep, if_pos h1]
  · rw [if_neg h1]
    by_cases h2 : n < 0x800
    · rw [if_pos h2]
      simp only [List.cons_append, List.nil_append, utf8DecodeStep,
        if_neg (by omega : ¬ 0xC0 + n / 64 < 0x80),
        if_neg (by omega : ¬ 0xC0 + n / 64 < 0xC0),
        if_pos (by omega : 0xC0 + n / 64 < 0xE0),
        isCont_ofMod, if_pos]
      have : (0xC0 + n / 64 - 0xC0) * 64 + (0x80 + n % 64 - 0x80) = n := by omega
      rw [this]
    · rw [if_neg h2]
      by_cases h3 : n < 0x10000
      · rw [if_pos h3]
        simp only [List.cons_append, List.nil_append, utf8DecodeStep,
          if_neg (by omega : ¬ 0xE0 + n / 4096 < 0x80),
          if_neg (by omega : ¬ 0xE0 + n / 4096 < 0xC0),
          if_neg (by omega : ¬ 0xE0 + n / 4096 < 0xE0),
          if_pos (by omega : 0xE0 + n / 4096 < 0xF0),
          isCont_ofMod, isCont_ofDivMod, Bool.and_self, if_pos]
        have : (0xE0 + n / 4096 - 0xE0) * 4096 + (0x80 + n / 64 % 64 - 0x80) * 64 +
            (0x80 + n % 64 - 0x80) = n := by omega
        rw [this]
      · rw [if_neg h3]
        simp only [List.cons_append, List.nil_append, utf8DecodeStep,
          if_neg (by omega : ¬ 0xF0 + n / 262144 < 0x80),
          if_neg (by omega : ¬ 0xF0 + n / 262144 < 0xC0),
          if_neg (by omega : ¬ 0xF0 + n / 262144 < 0xE0),
          if_neg (by omega : ¬ 0xF0 + n / 262144 < 0xF0),
          if_pos (by omega : 0xF0 + n / 262144 < 0xF8),
          isCont_ofMod, isCont_ofDivMod, Bool.and_self, if_pos]
        have : (0xF0 + n / 262144 - 0xF0) * 262144 + (0x80 + n / 4096 % 64 - 0x80) * 4096 +
            (0x80 + n / 64 % 64 - 0x80) * 64 + (0x80 + n % 64 - 0x80) = n := by omega
        rw [this]

theorem utf8EncodeChar_ne_nil (n : Nat) : utf8EncodeChar n ≠ [] := by
  unfold utf8EncodeChar
  split_ifs <;> simp

/-- The codec round trip: decoding an encoded sequence of code points below
`0x110000` gives it back. -/
theorem utf8Decode_utf8Encode (t : List Nat) (h : ∀ n ∈ t, n < 0x110000) :
    utf8Decode (utf8Encode t) = some t := by
  induction t with
  | nil => exact utf8Decode_nil
  | cons c cs ih =>
    have hc : c < 0x110000 := h c (by simp)
    have hstep : utf8Encode (c :: cs) = utf8EncodeChar c ++ utf8Encode cs := by
      simp [utf8Encode]
    have hne : utf8EncodeChar c ++ utf8Encode cs ≠ [] := by
      simp [utf8EncodeChar_ne_nil c]
    rw [hstep]
    obtain ⟨b, bs, hbs⟩ : ∃ b bs, utf8EncodeChar c ++ utf8Encode cs = b :: bs := by
      cases hx : utf8EncodeChar c ++ utf8Encode cs with
      | nil => exact absurd hx hne
      | cons b bs => exact ⟨b, bs, rfl⟩
    rw [hbs]
    rw [utf8Decode_cons_step b bs c (utf8Encode cs)
      (by rw [← hbs]; exact utf8DecodeStep_encodeChar c hc _)]
    rw [ih (fun n hn => h n (by simp [hn]))]
    rfl

/-! ## Path-join lemmas -/

theorem joinSlash_append (a s : Str) (rest : List Str) :
    joinSlash ((a ++ '/' :: s) :: rest) = a ++ '/' :: joinSlash (s :: rest) := by
  cases rest with
  | nil => rfl
  | cons r rs => simp [joinSlash, List.append_assoc]

theorem pjoin_joinSlash (a : Str) (rest : List Str)
    (ha : a ≠ []) (haL : a.getLast? ≠ some '/')
    (hr : ∀ s ∈ rest, s ≠ [] ∧ s.head? ≠ some '/' ∧ s.getLast? ≠ some '/') :
    pjoin a rest = joinSlash (a :: rest) := by
  induction rest generalizing a with
  | nil => rfl
  | cons s rs ih =>
    obtain ⟨hs, hsh, hsl⟩ := hr s (by simp)
    have hstep : pjoinStep a s = a ++ '/' :: s := by
      unfold pjoinStep
      rw [if_neg hsh, if_neg (by push_neg; exact ⟨ha, haL⟩)]
    have hfold : pjoin a (s :: rs) = pjoin (pjoinStep a s) rs := rfl
    rw [hfold, hstep]
    rw [ih (a ++ '/' :: s) (by simp)
      (by rw [List.getLast?_append_cons]
          rw [show ('/' :: s) = ['/'] ++ s from rfl,
            List.getLast?_append_of_ne_nil _ hs]
          exact hsl)
      (fun x hx => hr x (by simp [hx]))]
    exact joinSlash_append a s rs

/-! ## Claim theorems -/

/-- C4: as stated the claim is false: `"hdfs:foo"` contains no `"://"` yet
`urlparse` extracts the scheme `hdfs` from it, so `Path.is_hdfs` classifies
it remote, not local. -/
theorem is_hdfs_counterexample :
    hasSubstr "://".toList "hdfs:foo".toList = false ∧
    Path.is_hdfs "hdfs:foo".toList = true ∧
    Path.is_local "hdfs:foo".toList = false := by
  decide

/-- C4 (amended): `is_hdfs` is true iff the urlparse-extracted scheme
(lowercased; requiring only a valid scheme token before `':'`, not a full
`"://"`) is `hdfs` or `viewfs`; `is_local` is its exact negation (mutual
exclusivity); and any string without a `':'` at all is classified local. -/
theorem is_hdfs_scheme_spec (s : Str) :
    (Path.is_hdfs s = true ↔
      (urlparseScheme s = "hdfs".toList ∨ urlparseScheme s = "viewfs".toList)) ∧
    Path.is_local s = (! Path.is_hdfs s) ∧
    (s.contains ':' = false → Path.is_hdfs s = false) := by
  refine ⟨?_, rfl, ?_⟩
  · simp [Path.is_hdfs]
  · intro h
    have h' : ':' ∉ s := by simpa using h
    simp [Path.is_hdfs, urlparseScheme, h']

/-- C4 witness: a plain relative path with no colon is local. -/
theorem is_hdfs_scheme_spec_witness :
    Path.is_hdfs "foo/bar".toList = false :=
  (is_hdfs_scheme_spec "foo/bar".toList).2.2 (by decide)

/-- C5: as stated the claim is false: `os.path.join` restarts at an absolute
segment, so `Path("foo", "/bar")` is the string `"/bar"`, not
`"foo" + "/" + "/bar"`. -/
theorem path_join_counterexample :
    Path.mk' ["foo".toList, "/bar".toList] = "/bar".toList ∧
    Path.mk' ["foo".toList, "/bar".toList] ≠
      joinSlash ["foo".toList, "/bar".toList] := by
  decide

/-- C5 (amended): for a non-empty sequence of segments that are each
non-empty and neither begin nor end with `'/'`, the string form of
`Path(s1,...,sn)` equals the segments joined by a single `'/'` separator;
in general `os.path.join` semantics apply (a later absolute segment discards
what precedes it, a trailing `'/'` suppresses the added separator). -/
theorem path_join_spec (segs : List Str) (hne : segs ≠ [])
    (h : ∀ s ∈ segs, s ≠ [] ∧ s.head? ≠ some '/' ∧ s.getLast? ≠ some '/') :
    Path.mk' segs = joinSlash segs := by
  match segs with
  | [] => exact absurd rfl hne
  | a :: rest =>
    exact pjoin_joinSlash a rest (h a (by simp)).1 (h a (by simp)).2.2
      (fun x hx => h x (by simp [hx]))

/-- C5 witness: `Path("foo", "bar")` is `"foo/bar"`. -/
theorem path_join_spec_witness :
    Path.mk' ["foo".toList, "bar".toList] =
      joinSlash ["foo".toList, "bar".toList] :=
  path_join_spec ["foo".toList, "bar".toList] (by decide) (by decide)

/-- C2: as stated the claim is false: on a remote path `glob` does not return
an empty sequence — the function body has no `return` for that case, so it
returns `None` (here `Option.none`), which is not an iterable of results at
all (iterating it raises `TypeError`). -/
theorem glob_remote_counterexample :
    Path.glob ⟨⟨[]⟩, ⟨[]⟩, true⟩ "hdfs://root/dir".toList "*".toList ≠ some [] ∧
    Path.glob ⟨⟨[]⟩, ⟨[]⟩, true⟩ "hdfs://root/dir".toList "*".toList = none := by
  have h : Path.glob ⟨⟨[]⟩, ⟨[]⟩, true⟩ "hdfs://root/dir".toList "*".toList = none := rfl
  exact ⟨by rw [h]; simp, h⟩

/-- C2 (amended): for every remote path `glob` returns `None` (no iterator,
not an empty one) and never raises; for every local path it returns the lazy
sequence of exactly the direct children of the path whose name matches the
pattern. -/
theorem glob_spec (w : World) (p pattern : Str) :
    (Path.is_hdfs p = true → Path.glob w p pattern = none) ∧
    (Path.is_hdfs p = false →
      ∃ l, Path.glob w p pattern = some l ∧
        ∀ q, q ∈ l ↔ q ∈ w.localFS.entries.map (·.1) ∧
          isChildOf p q = true ∧
          globMatch pattern (q.drop (p.length + 1)) = true) := by
  constructor
  · intro h
    simp [Path.glob, h]
  · intro h
    refine ⟨localGlob w.localFS p pattern, by simp [Path.glob, h], ?_⟩
    intro q
    unfold localGlob
    rw [List.mem_filter]
    simp only [Bool.and_eq_true, and_assoc]

/-- C2 witness: `glob("*")` on a remote path yields nothing. -/
theorem glob_spec_witness :
    Path.glob ⟨⟨[]⟩, ⟨[]⟩, true⟩ "hdfs://root".toList "*".toList = none :=
  (glob_spec _ _ _).1 (by decide)

/-- C3: as stated the claim is false: none of `exists`, `is_dir`, `is_file`
catches errors — on a remote path with the backend unreachable,
`HDFSContext.__enter__`'s `pyarrow.hdfs.connect()` failure propagates as
`ConnectionError` instead of being normalized to `false`. -/
theorem predicates_counterexample :
    Path.exists' ⟨⟨[]⟩, ⟨[]⟩, false⟩ "hdfs://root/f".toList none =
      .error .connectionError ∧
    Path.is_dir ⟨⟨[]⟩, ⟨[]⟩, false⟩ "hdfs://root/f".toList none =
      .error .connectionError ∧
    Path.is_file ⟨⟨[]⟩, ⟨[]⟩, false⟩ "hdfs://root/f".toList none =
      .error .connectionError := by
  refine ⟨rfl, rfl, rfl⟩

/-- C3 (amended): whenever the resolved backend is reachable (always, except
for a remote path with no supplied handle and the connection down), the
three predicates return the backend's boolean rather than raising, and an
absent entry yields `false` for all three; a remote connection failure,
however, propagates as `ConnectionError`. -/
theorem predicates_spec (w : World) (p : Str) (filesystem : Option FS)
    (h : filesystem = none → Path.is_hdfs p = true → w.hdfsUp = true) :
    Path.exists' w p filesystem = .ok ((resolvedFS w p filesystem).exists' p) ∧
    Path.is_dir w p filesystem = .ok ((resolvedFS w p filesystem).isdir p) ∧
    Path.is_file w p filesystem = .ok ((resolvedFS w p filesystem).isfile p) ∧
    ((resolvedFS w p filesystem).lookup p = none →
      Path.exists' w p filesystem = .ok false ∧
      Path.is_dir w p filesystem = .ok false ∧
      Path.is_file w p filesystem = .ok false) := by
  have habs : ∀ fs : FS, fs.lookup p = none →
      fs.exists' p = false ∧ fs.isdir p = false ∧ fs.isfile p = false := by
    intro fs hfs
    refine ⟨by simp [FS.exists', hfs], by simp [FS.isdir, hfs], by simp [FS.isfile, hfs]⟩
  cases filesystem with
  | some fs =>
    refine ⟨rfl, rfl, rfl, ?_⟩
    intro hn
    obtain ⟨h1, h2, h3⟩ := habs fs hn
    exact ⟨by simp [Path.exists', h1], by simp [Path.is_dir, h2],
      by simp [Path.is_file, h3]⟩
  | none =>
    by_cases hh : Path.is_hdfs p
    · have hup : w.hdfsUp = true := h rfl hh
      have henter : HDFSContext.enter w = .ok w.hdfsFS := by
        simp [HDFSContext.enter, hup]
      have hres : resolvedFS w p none = w.hdfsFS := by
        simp [resolvedFS, hh]
      refine ⟨?_, ?_, ?_, ?_⟩
      · simp [Path.exists', hh, henter, hres, Except.map]
      · simp [Path.is_dir, hh, henter, hres, Except.map]
      · simp [Path.is_file, hh, henter, hres, Except.map]
      · intro hn
        rw [hres] at hn
        obtain ⟨h1, h2, h3⟩ := habs _ hn
        exact ⟨by simp [Path.exists', hh, henter, h1, Except.map],
          by simp [Path.is_dir, hh, henter, h2, Except.map],
          by simp [Path.is_file, hh, henter, h3, Except.map]⟩
    · have hres : resolvedFS w p none = w.localFS := by
        simp [resolvedFS, hh]
      refine ⟨?_, ?_, ?_, ?_⟩
      · simp [Path.exists', hh, hres]
      · simp [Path.is_dir, hh, hres]
      · simp [Path.is_file, hh, hres]
      · intro hn
        rw [hres] at hn
        obtain ⟨h1, h2, h3⟩ := habs _ hn
        exact ⟨by simp [Path.exists', hh, h1], by simp [Path.is_dir, hh, h2],
          by simp [Path.is_file, hh, h3]⟩

/-- C3 witness: on a reachable remote backend with an absent path, all three
predicates return `false` without raising. -/
theorem predicates_spec_witness :
    Path.exists' ⟨⟨[]⟩, ⟨[]⟩, true⟩ "hdfs://root/f".toList none = .ok false :=
  ((predicates_spec ⟨⟨[]⟩, ⟨[]⟩, true⟩ "hdfs://root/f".toList none
    (fun _ _ => rfl)).2.2.2 (by decide)).1

/-- Removing a path's entry really removes it. -/
theorem FS.lookup_remove_self (fs : FS) (p : Str) :
    (fs.remove p).lookup p = none := by
  unfold FS.remove FS.lookup
  rw [Option.map_eq_none', List.find?_eq_none]
  intro x hx
  have hne := (List.mem_filter.mp hx).2
  simp only [ne_eq, decide_not, Bool.not_eq_true', decide_eq_false_iff_not] at hne
  simpa using hne

/-- Writing a file stores exactly its bytes at the path. -/
theorem FS.lookup_setFile_self (fs : FS) (p : Str) (bs : List Nat) :
    (fs.setFile p bs).lookup p = some (.file bs) := by
  unfold FS.setFile FS.lookup
  rw [List.find?_cons_of_pos _ (by simp)]
  rfl

/-- C1: the claim is wrong about the code, and the code is the slip: because
`is_local` is defined as `not is_hdfs`, the `elif self.is_hdfs / elif
self.is_local / else` chain in `copy_file` can never reach the `else` branch,
so the backend-native `shutil.copy` is dead code and a local-to-local copy
performs a streaming HDFS upload instead (second conjunct: a local source
copied to a local destination directory issues
`pyarrow.hdfs.HadoopFileSystem().upload("d/a.txt", file, 4096)`). -/
theorem copy_file_dispatch_bug :
    (∀ w p dest filesystem s d,
      Path.copy_file w p dest filesystem ≠ .ok (.shutilCopy s d)) ∧
    Path.copy_file ⟨⟨[("a.txt".toList, .file [1, 2, 3])]⟩, ⟨[]⟩, true⟩
        "a.txt".toList "d".toList none =
      .ok (.hdfsUpload "d/a.txt".toList 4096) := by
  constructor
  · intro w p dest filesystem s d hEq
    unfold Path.copy_file at hEq
    cases hf : Path.is_file w p filesystem with
    | error e => rw [hf] at hEq; exact absurd hEq (by simp)
    | ok b =>
      rw [hf] at hEq
      cases b
      · exact absurd hEq (by simp)
      · by_cases hh : Path.is_hdfs p
        · simp only [hh, if_true] at hEq
          exact absurd hEq (by simp)
        · simp only [hh, if_false, Bool.false_eq_true, Path.is_local, hh,
            Bool.not_false, if_true] at hEq
          exact absurd hEq (by simp)
  · rfl

/-- C1 witness: the unreachable-branch fact applied at a concrete input. -/
theorem copy_file_dispatch_bug_witness :
    Path.copy_file ⟨⟨[]⟩, ⟨[]⟩, true⟩ "x".toList "d".toList none ≠
      .ok (.shutilCopy "x".toList "d".toList) :=
  copy_file_dispatch_bug.1 ⟨⟨[]⟩, ⟨[]⟩, true⟩ "x".toList "d".toList none
    "x".toList "d".toList

/-- C6: as stated the claim is false: the wrapper performs no mode validation
at open time.  The write-like mode string `"wt"` is outside the 4 recognized
forms, yet `HDFSFile.__init__` accepts it (it merely forwards it to the
backend `open`), and the rejection only happens at `write` call time. -/
theorem mode_validation_counterexample :
    HDFSFile.init "wt".toList (some .utf8) = .ok ("wt".toList, some .utf8) ∧
    HDFSFile.write "wt".toList (some .utf8) (.str [97]) =
      .error .invalidMode := by
  exact ⟨rfl, rfl⟩

/-- C6 (amended): `write` raises `InvalidModeError` exactly when the mode is
not `"w"`/`"wb"`, and `read` exactly when the mode is not `"r"`/`"rb"`
(other failures of well-typed calls are different errors); construction
itself never rejects a mode — a string outside the 4 recognized forms is
passed through to the backend `open` (after the `r→rb`, `w→wb` translation)
and is rejected by the wrapper only at read/write call time. -/
theorem mode_validation_spec (mode : Str) (encoding : Option Encoding) :
    (∃ r, HDFSFile.init mode encoding = .ok r) ∧
    (∀ data, HDFSFile.write mode encoding data = .error .invalidMode ↔
      ¬ (mode = "w".toList ∨ mode = "wb".toList)) ∧
    (∀ stream, HDFSFile.read mode encoding stream = .error .invalidMode ↔
      ¬ (mode = "r".toList ∨ mode = "rb".toList)) := by
  refine ⟨⟨_, rfl⟩, ?_, ?_⟩
  · intro data
    unfold HDFSFile.write
    by_cases hw : mode = "w".toList
    · rw [if_pos hw]
      cases data <;> cases encoding <;> simp [hw]
    · rw [if_neg hw]
      by_cases hwb : mode = "wb".toList
      · rw [if_pos hwb]
        cases data <;> simp [hwb]
      · rw [if_neg hwb]
        exact ⟨fun _ => not_or.mpr ⟨hw, hwb⟩, fun _ => rfl⟩
  · intro stream
    unfold HDFSFile.read
    by_cases hr : mode = "r".toList
    · rw [if_pos hr]
      cases encoding with
      | none => simp [hr]
      | some e =>
        cases e
        cases utf8Decode stream <;> simp [hr]
    · rw [if_neg hr]
      by_cases hrb : mode = "rb".toList
      · rw [if_pos hrb]
        simp [hrb]
      · rw [if_neg hrb]
        exact ⟨fun _ => not_or.mpr ⟨hr, hrb⟩, fun _ => rfl⟩

/-- C8: `delete` on an existing file removes it — a subsequent `exists` on
the same path returns `false` — and `delete` on anything that is not an
existing file raises `NotFoundError` before touching any backend, for both
backends and also with a supplied handle. -/
theorem delete_spec (w : World) (p : Str) :
    (∀ filesystem, Path.is_file w p filesystem = .ok false →
      Path.delete w p filesystem = .error .notFound) ∧
    (Path.is_file w p none = .ok true →
      ∃ w' calls, Path.delete w p none = .ok (w', calls) ∧
        Path.exists' w' p none = .ok false) := by
  constructor
  · intro filesystem h
    unfold Path.delete
    rw [h]
  · intro h
    by_cases hh : Path.is_hdfs p
    · have hup : w.hdfsUp = true := by
        by_contra hup
        simp [Path.is_file, hh, HDFSContext.enter, hup, Except.map] at h
      have henter : HDFSContext.enter w = .ok w.hdfsFS := by
        simp [HDFSContext.enter, hup]
      refine ⟨{w with hdfsFS := w.hdfsFS.remove p}, [.hdfsDelete p], ?_, ?_⟩
      · unfold Path.delete
        rw [h]
        simp [hh, henter]
      · simp [Path.exists', hh, HDFSContext.enter, hup, Except.map,
          FS.exists', FS.lookup_remove_self]
    · refine ⟨{w with localFS := w.localFS.remove p}, [.localUnlink p], ?_, ?_⟩
      · unfold Path.delete
        rw [h]
        simp [hh]
      · simp [Path.exists', hh, FS.exists', FS.lookup_remove_self]

/-- C8 witness: deleting an existing local file makes it not exist; deleting
a missing file raises `NotFoundError`. -/
theorem delete_spec_witness :
    Path.delete ⟨⟨[]⟩, ⟨[]⟩, true⟩ "a.txt".toList none = .error .notFound ∧
    ∃ w' calls,
      Path.delete ⟨⟨[("a.txt".toList, .file [7])]⟩, ⟨[]⟩, true⟩
        "a.txt".toList none = .ok (w', calls) ∧
      Path.exists' w' "a.txt".toList none = .ok false := by
  constructor
  · exact (delete_spec ⟨⟨[]⟩, ⟨[]⟩, true⟩ "a.txt".toList).1 none rfl
  · exact (delete_spec ⟨⟨[("a.txt".toList, .file [7])]⟩, ⟨[]⟩, true⟩
      "a.txt".toList).2 rfl

/-- C9: `mkdir` on an existing directory raises `AlreadyExistsError` when
`exist_ok` is false, and when `exist_ok` is true returns immediately with the
world unchanged and an empty backend-call trace (no create call is issued) —
on either backend and with or without a supplied handle. -/
theorem mkdir_exist_ok_spec (w : World) (p : Str) (parents : Bool)
    (filesystem : Option FS)
    (h : Path.is_dir w p filesystem = .ok true) :
    Path.mkdir w p parents false filesystem = .error .alreadyExists ∧
    Path.mkdir w p parents true filesystem = .ok (w, []) := by
  unfold Path.mkdir
  rw [h]
  exact ⟨rfl, rfl⟩

/-- C9 witness: on a world whose local filesystem has the directory `d`. -/
theorem mkdir_exist_ok_spec_witness :
    Path.mkdir ⟨⟨[("d".toList, .dir)]⟩, ⟨[]⟩, true⟩ "d".toList false false none =
      .error .alreadyExists ∧
    Path.mkdir ⟨⟨[("d".toList, .dir)]⟩, ⟨[]⟩, true⟩ "d".toList false true none =
      .ok (⟨⟨[("d".toList, .dir)]⟩, ⟨[]⟩, true⟩, []) :=
  mkdir_exist_ok_spec ⟨⟨[("d".toList, .dir)]⟩, ⟨[]⟩, true⟩ "d".toList false none rfl

/-- C10: for a remote path, and for any path when a filesystem handle is
supplied, `mkdir` is unaffected by the `parents` argument, and the create
call it issues is the same single plain `mkdir(path)` backend call; the
`parents` flag reaches only `pathlib`'s local `mkdir`. -/
theorem mkdir_parents_spec (w : World) (p : Str)
    (par1 par2 exist_ok : Bool) (filesystem : Option FS)
    (h : filesystem.isSome = true ∨ Path.is_hdfs p = true) :
    Path.mkdir w p par1 exist_ok filesystem =
      Path.mkdir w p par2 exist_ok filesystem ∧
    (∀ fs, filesystem = some fs → Path.is_dir w p filesystem = .ok false →
      Path.mkdir w p par1 exist_ok filesystem = .ok (w, [.fsMkdir p])) ∧
    (filesystem = none → Path.is_hdfs p = true → w.hdfsUp = true →
      Path.is_dir w p none = .ok false →
      Path.mkdir w p par1 exist_ok none =
        .ok ({w with hdfsFS := hdfsMkdirFS w.hdfsFS p}, [.hdfsMkdir p])) := by
  refine ⟨?_, ?_, ?_⟩
  · cases hf : filesystem with
    | some fs => rfl
    | none =>
      rcases h with h | h
      · rw [hf] at h
        exact absurd h (by simp)
      · unfold Path.mkdir
        simp only [h, if_true]
  · intro fs hfs hdir
    subst hfs
    unfold Path.mkdir
    rw [hdir]
  · intro hfs hh hup hdir
    unfold Path.mkdir
    rw [hdir]
    simp [hh, HDFSContext.enter, hup]

/-- C10 witness: on a remote path, `parents := true` and `parents := false`
give identical results, and the issued call is the single remote mkdir. -/
theorem mkdir_parents_spec_witness :
    Path.mkdir ⟨⟨[]⟩, ⟨[]⟩, true⟩ "hdfs://root/d".toList true false none =
      Path.mkdir ⟨⟨[]⟩, ⟨[]⟩, true⟩ "hdfs://root/d".toList false false none ∧
    Path.mkdir ⟨⟨[]⟩, ⟨[]⟩, true⟩ "hdfs://root/d".toList true false none =
      .ok (⟨⟨[]⟩, hdfsMkdirFS ⟨[]⟩ "hdfs://root/d".toList, true⟩,
        [.hdfsMkdir "hdfs://root/d".toList]) := by
  constructor
  · exact (mkdir_parents_spec ⟨⟨[]⟩, ⟨[]⟩, true⟩ "hdfs://root/d".toList
      true false false none (Or.inr (by decide))).1
  · exact (mkdir_parents_spec ⟨⟨[]⟩, ⟨[]⟩, true⟩ "hdfs://root/d".toList
      true false false none (Or.inr (by decide))).2.2 rfl (by decide) rfl rfl

/-- Reading in text mode with the utf-8 encoding decodes the stream. -/
theorem HDFSFile.read_text (bs : List Nat) (t : List Nat)
    (h : utf8Decode bs = some t) :
    HDFSFile.read "r".toList (some .utf8) bs = .ok (.str t) := by
  unfold HDFSFile.read
  rw [if_pos rfl]
  simp only [h]

/-- C6 witness: the unrecognized mode `"a"` is rejected at write call time
with `InvalidModeError`. -/
theorem mode_validation_spec_witness :
    HDFSFile.write "a".toList (some .utf8) (.str [97]) = .error .invalidMode :=
  ((mode_validation_spec "a".toList (some .utf8)).2.1 (.str [97])).mpr (by decide)

/-- C7: the write-then-read round trip: writing the text `t` (a sequence of
Unicode scalar values) through `open("w")` and reading through `open("r")`
on the same path returns exactly `t`, on whichever backend the path
resolves to (the utf-8 default encoding is applied on both sides). -/
theorem write_read_roundtrip (w : World) (p : Str) (t : List Nat) (w' : World)
    (hv : ∀ n ∈ t, ValidScalar n)
    (hw : Path.openWriteText w p (.str t) = .ok w') :
    Path.openReadText w' p = .ok (.str t) := by
  have hlt : ∀ n ∈ t, n < 0x110000 := fun n hn => (hv n hn).1
  unfold Path.openWriteText at hw
  by_cases hh : Path.is_hdfs p = true
  · rw [if_pos hh] at hw
    cases hup : w.hdfsUp with
    | false =>
      rw [show HDFSContext.enter w = .error .connectionError from by
        simp [HDFSContext.enter, hup]] at hw
      exact absurd hw (by simp)
    | true =>
      rw [show HDFSContext.enter w = .ok w.hdfsFS from by
        simp [HDFSContext.enter, hup]] at hw
      rw [show HDFSFile.write "w".toList (some .utf8) (.str t) =
        .ok (utf8Encode t) from by unfold HDFSFile.write; rw [if_pos rfl]] at hw
      have hw2 : Except.ok (ε := Err)
          {w with hdfsFS := w.hdfsFS.setFile p (utf8Encode t)} = .ok w' := hw
      have hweq : {w with hdfsFS := w.hdfsFS.setFile p (utf8Encode t)} = w' := by
        injection hw2
      subst hweq
      unfold Path.openReadText
      rw [if_pos hh]
      rw [show HDFSContext.enter {w with hdfsFS := w.hdfsFS.setFile p (utf8Encode t)} =
        .ok (w.hdfsFS.setFile p (utf8Encode t)) from by
          simp [HDFSContext.enter, hup]]
      simp only [FS.lookup_setFile_self]
      exact HDFSFile.read_text _ t (utf8Decode_utf8Encode t hlt)
  · rw [if_neg hh] at hw
    have hw2 : Except.ok (ε := Err)
        {w with localFS := w.localFS.setFile p (utf8Encode t)} = .ok w' := hw
    have hweq : {w with localFS := w.localFS.setFile p (utf8Encode t)} = w' := by
      injection hw2
    subst hweq
    unfold Path.openReadText
    rw [if_neg hh]
    simp only [FS.lookup_setFile_self, utf8Decode_utf8Encode t hlt]

/-- C7 witness: round trip of the text `"hi"` through a remote path. -/
theorem write_read_roundtrip_witness :
    Path.openReadText ⟨⟨[]⟩, ⟨[("hdfs://root/t.txt".toList, .file [104, 105])]⟩, true⟩
      "hdfs://root/t.txt".toList = .ok (.str [104, 105]) :=
  write_read_roundtrip ⟨⟨[]⟩, ⟨[]⟩, true⟩ "hdfs://root/t.txt".toList [104, 105]
    ⟨⟨[]⟩, ⟨[("hdfs://root/t.txt".toList, .file [104, 105])]⟩, true⟩
    (by decide) (by rfl)

example : Path.is_hdfs "hdfs://root/foo".toList = true := by decide
example : Path.is_hdfs "viewfs://root/foo".toList = true := by decide
example : Path.is_hdfs "/tmp/foo".toList = false := by decide
example : Path.is_hdfs "foo/bar".toList = false := by decide
example : Path.is_hdfs "hdfs:foo".toList = true := by decide
example : hasSubstr "://".toList "hdfs:foo".toList = false := by decide
example : Path.mk' ["foo".toList, "bar".toList] = "foo/bar".toList := by decide
example : Path.mk' ["foo".toList, "/bar".toList] = "/bar".toList := by decide
example : basename "a/b/c.txt".toList = "c.txt".toList := by decide
